import Mathlib

/-!
# Path collective variables: the reduction `PATH` and the path projection

A shallow embedding of `src/function/Path.cpp` and of
`src/mapping/PathProjectionCalculator.cpp`.

Conventions of the embedding.

* `double` is an arbitrary field `α`; the theorems are stated over `ℝ`, with
  `exp` and `log` of `<cmath>` passed in as a `CMath` record (instantiated by
  `Real.exp` and `Real.log`).  Rounding is not modelled.
* `unsigned` loop counters and task indices run below the size of a vector held in
  memory and are modelled by `Nat`; the `unsigned` expressions computed from
  caller-supplied values (`getShape()[1]*closest`, `k+i`, `arg_ends[1]-arg_ends[0]`) wrap
  modulo 2^32.
* `std::vector<double>` arguments are lists; buffers written by index
  (`normd`, derivative slots) are functions `Nat → α` updated pointwise.
* `error(...)` throws: the constructors return `Outcome.error` at the first
  failing check.  An unchecked `operator[]` outside a vector is
  `Outcome.outOfBounds`.
-/

set_option linter.unusedVariables false
set_option linter.dupNamespace false

namespace PLMD

/-- The functions of `<cmath>` that the reduction calls. -/
structure CMath (α : Type) where
  /-- The function `exp`. -/
  exp : α → α
  /-- The function `std::log`. -/
  log : α → α

/-- Modelled from the spec: the per-task scratch object `MultiValue` (its header is not
among the sources): the task index, one value per output component and one derivative
per (component, derivative index). -/
structure MultiValue (α : Type) where
  /-- Index of the task being evaluated. -/
  task_index : Nat
  /-- Value of each component. -/
  values : Nat → α
  /-- Derivative of each component with respect to each derivative index. -/
  derivatives : Nat → Nat → α

namespace MultiValue

variable {α : Type}

/-- Modelled from the spec: `MultiValue::getTaskIndex`. -/
def getTaskIndex (myvals : MultiValue α) : Nat := myvals.task_index

/-- Modelled from the spec: a cleared `MultiValue` for task `t` (all values and
derivatives zero), as handed to `calculateFunction` at the start of a task. -/
def clear [Zero α] (t : Nat) : MultiValue α := ⟨t, fun _ => 0, fun _ _ => 0⟩

end MultiValue

/-- Modelled from the spec: an output component `Value` (its header is not among the
sources): a value and its derivative slots. -/
structure Value (α : Type) where
  /-- The stored value. -/
  value : α
  /-- Number of derivative slots. -/
  nder : Nat
  /-- The derivative slots. -/
  derivs : Nat → α

namespace Value

variable {α : Type}

/-- Modelled from the spec: `Value::get`. -/
def get (v : Value α) : α := v.value

/-- Modelled from the spec: `Value::set`. -/
def set (v : Value α) (x : α) : Value α := ⟨x, v.nder, v.derivs⟩

/-- Modelled from the spec: `Value::getNumberOfDerivatives`. -/
def getNumberOfDerivatives (v : Value α) : Nat := v.nder

/-- Modelled from the spec: `Value::getDerivative`. -/
def getDerivative (v : Value α) (j : Nat) : α := v.derivs j

/-- Modelled from the spec: `Value::setDerivative`. -/
def setDerivative (v : Value α) (j : Nat) (x : α) : Value α :=
  ⟨v.value, v.nder, Function.update v.derivs j x⟩

/-- Modelled from the spec: a component with `n` derivative slots, all cleared. -/
def cleared [Zero α] (n : Nat) : Value α := ⟨0, n, fun _ => 0⟩

end Value

/-- Result of an operation that may throw (`error(...)`) or index a `std::vector` outside
its bounds with the unchecked `operator[]`. -/
inductive Outcome (β : Type) where
  /-- Normal completion with a result. -/
  | ok (v : β)
  /-- The call `error(msg)`: the action reports `msg` and stops. -/
  | error (msg : String)
  /-- An unchecked read at `index` outside the bounds of a vector; nothing is reported. -/
  | outOfBounds (index : Nat)

/-- What the constructors read of an input value: `getRank()` and `isPeriodic()`. -/
structure Argument where
  /-- The result of `getRank()`. -/
  rank : Nat
  /-- The result of `isPeriodic()`. -/
  periodic : Bool

/-- What the constructors read of the base object `ActionWithArguments`: the vector of
arguments and the inherited member `arg_ends` (filled by the base class while it parses
the `ARG` keywords; the base class is not among the sources, so `arg_ends` is an input). -/
structure ActionWithArguments where
  /-- The arguments, in order. -/
  arguments : List Argument
  /-- The member `arg_ends`, by index. -/
  arg_ends : Nat → Nat

namespace ActionWithArguments

/-- The accessor `getNumberOfArguments`. -/
def getNumberOfArguments (act : ActionWithArguments) : Nat := act.arguments.length

/-- The accessor `getPntrToArgument`: an unchecked read of the vector of arguments. -/
def getPntrToArgument (act : ActionWithArguments) (i : Nat) : Option Argument :=
  act.arguments[i]?

end ActionWithArguments

namespace function

variable {α : Type}

/-- The state of a `Path` action that `calculateFunction` and
`transformFinalValueAndDerivatives` read: the member `lambda` and the inherited
`done_over_stream`, `doNotCalculateDerivatives()` and `getNumberOfArguments()`. -/
structure Path (α : Type) where
  /-- The smoothing parameter `LAMBDA`. -/
  lambda : α
  /-- Whether the input arrives one task at a time. -/
  done_over_stream : Bool
  /-- The result of `doNotCalculateDerivatives()`. -/
  noDerivatives : Bool
  /-- The result of `getNumberOfArguments()`. -/
  numberOfArguments : Nat

/-- Modelled from the spec: `Function::setValue` stores `val` as component `ival`. -/
def setValue (ival : Nat) (val : α) (myvals : MultiValue α) : MultiValue α :=
  ⟨myvals.task_index, Function.update myvals.values ival val, myvals.derivatives⟩

/-- Modelled from the spec: `Function::addDerivative` adds `der` to derivative `jder` of
component `ival`. -/
def addDerivative [Add α] (ival jder : Nat) (der : α) (myvals : MultiValue α) :
    MultiValue α :=
  ⟨myvals.task_index, myvals.values,
    Function.update myvals.derivatives ival
      (Function.update (myvals.derivatives ival) jder (myvals.derivatives ival jder + der))⟩

/-- The locals `s`, `norm` and `normd` of the whole-vector branch. -/
structure Sums (α : Type) where
  /-- Running sum of `(i+1)*val`. -/
  s : α
  /-- Running sum of `val`. -/
  norm : α
  /-- The vector `normd`. -/
  normd : Nat → α

/-- Body of the first loop of the whole-vector branch (Path.cpp line 97). -/
def sumStep [Field α] (m : CMath α) (lambda : α) (args : List α) (st : Sums α) (i : Nat) :
    Sums α :=
  let val := m.exp (-lambda * args.getD i 0)
  ⟨st.s + ((i + 1 : Nat) : α) * val, st.norm + val, Function.update st.normd i (-lambda * val)⟩

/-- The first loop of the whole-vector branch (Path.cpp lines 95-98). -/
def sumLoop [Field α] (m : CMath α) (lambda : α) (args : List α) : Sums α :=
  (List.range args.length).foldl (sumStep m lambda args) ⟨0, 0, fun _ => 0⟩

/-- Body of the second loop of the whole-vector branch (Path.cpp lines 103-106). -/
def derivStep [Field α] (st : Sums α) (zpref ddenom : α) (myvals : MultiValue α) (i : Nat) :
    MultiValue α :=
  let myvals := addDerivative 0 i
    (((i + 1 : Nat) : α) * st.normd i / st.norm - ddenom * st.normd i) myvals
  addDerivative 1 i (-zpref * st.normd i) myvals

/-- The method `Path::calculateFunction` (Path.cpp lines 85-110).  The result is `none`
when `plumed_dbg_assert( done_over_stream )` fails. -/
def Path.calculateFunction [Field α] (m : CMath α) (p : Path α) (args : List α)
    (myvals : MultiValue α) : Option (MultiValue α) :=
  if args.length = 1 then
    if p.done_over_stream then
      let val := m.exp (-p.lambda * args.getD 0 0)
      let fram : α := ((myvals.getTaskIndex + 1 : Nat) : α)
      let myvals := setValue 0 (fram * val) myvals
      let myvals := addDerivative 0 0 (-p.lambda * fram * val) myvals
      let myvals := setValue 1 val myvals
      let myvals := addDerivative 1 0 (-p.lambda * val) myvals
      some myvals
    else none
  else
    let st := sumLoop m p.lambda args
    let myvals := setValue 0 (st.s / st.norm) myvals
    let myvals := setValue 1 (-m.log st.norm / p.lambda) myvals
    if !p.noDerivatives then
      let zpref := 1 / (st.norm * p.lambda)
      let ddenom := st.s / (st.norm * st.norm)
      some ((List.range args.length).foldl (derivStep st zpref ddenom) myvals)
    else some myvals

/-- Body of the loop of `transformFinalValueAndDerivatives` (Path.cpp lines 120-122). -/
def transformStep [Field α] (num denom denom2 zpref : α) (vals : Value α × Value α)
    (j : Nat) : Value α × Value α :=
  let denom_deriv := vals.2.getDerivative j
  let val0 := vals.1.setDerivative j (vals.1.getDerivative j / denom - denom_deriv * num / denom2)
  let val1 := vals.2.setDerivative j (-zpref * denom_deriv)
  (val0, val1)

/-- The method `Path::transformFinalValueAndDerivatives` (Path.cpp lines 112-125), acting
on the two components `s` and `z`. -/
def Path.transformFinalValueAndDerivatives [Field α] (m : CMath α) (p : Path α)
    (vals : Value α × Value α) : Value α × Value α :=
  if !p.done_over_stream || decide (p.numberOfArguments > 1) then vals
  else
    let val0 := vals.1
    let val1 := vals.2
    let num := val0.get
    let denom := val1.get
    let val0 := val0.set (num / denom)
    let val1 := val1.set (-m.log denom / p.lambda)
    if !p.noDerivatives then
      let denom2 := denom * denom
      let zpref := 1 / (denom * p.lambda)
      (List.range val0.getNumberOfDerivatives).foldl (transformStep num denom denom2 zpref)
        (val0, val1)
    else (val0, val1)

/-- Modelled from the spec: accumulation of one streamed task into the two components
(the accumulation lives in the framework, not among the sources).  The values of the task
are added to the running sums, and the derivative with respect to the single streamed
argument (derivative index 0 of the task) is added to derivative slot `t` of the
component, `t` being the task index. -/
def gatherTask [Add α] (vals : Value α × Value α) (myvals : MultiValue α) :
    Value α × Value α :=
  let t := myvals.getTaskIndex
  (⟨vals.1.value + myvals.values 0, vals.1.nder,
      Function.update vals.1.derivs t (vals.1.derivs t + myvals.derivatives 0 0)⟩,
   ⟨vals.2.value + myvals.values 1, vals.2.nder,
      Function.update vals.2.derivs t (vals.2.derivs t + myvals.derivatives 1 0)⟩)

/-- Modelled from the spec: one streamed task: `calculateFunction` on the one-element
input `[d_t]` with a cleared `MultiValue` for task `t`, then accumulation. -/
def streamTask [Field α] (m : CMath α) (p : Path α) (d : List α)
    (acc : Option (Value α × Value α)) (t : Nat) : Option (Value α × Value α) :=
  match acc with
  | none => none
  | some vals =>
    match p.calculateFunction m [d.getD t 0] (MultiValue.clear t) with
    | none => none
    | some myvals => some (gatherTask vals myvals)

/-- Modelled from the spec: streaming mode over the distances `d`: tasks `0..N-1` are
accumulated into cleared components with `N` derivative slots, and
`transformFinalValueAndDerivatives` is applied at the end. -/
def Path.runStream [Field α] (m : CMath α) (p : Path α) (d : List α) :
    Option (Value α × Value α) :=
  match (List.range d.length).foldl (streamTask m p d)
      (some (Value.cleared d.length, Value.cleared d.length)) with
  | none => none
  | some vals => some (p.transformFinalValueAndDerivatives m vals)

/-- The weight sum as the specification writes it: `norm = Σ_i w_i`, `w_i = exp(-λ·d_i)`. -/
def specNorm [Field α] (m : CMath α) (lambda : α) (d : List α) : α :=
  ∑ j in Finset.range d.length, m.exp (-lambda * d.getD j 0)

/-- The rank-weighted sum as the specification writes it: `s = Σ_i r_i·w_i`, `r_i = i+1`. -/
def specSum [Field α] (m : CMath α) (lambda : α) (d : List α) : α :=
  ∑ j in Finset.range d.length, ((j + 1 : Nat) : α) * m.exp (-lambda * d.getD j 0)

/-- The progress coordinate as the specification writes it: `S = s / norm`. -/
def specS [Field α] (m : CMath α) (lambda : α) (d : List α) : α :=
  specSum m lambda d / specNorm m lambda d

/-- The deviation coordinate as the specification writes it: `Z = -ln(norm) / λ`. -/
def specZ [Field α] (m : CMath α) (lambda : α) (d : List α) : α :=
  -m.log (specNorm m lambda d) / lambda

/-- The quantity `normd_i = -λ·w_i` of the specification. -/
def specNormd [Field α] (m : CMath α) (lambda : α) (d : List α) (i : Nat) : α :=
  -lambda * m.exp (-lambda * d.getD i 0)

/-- The derivative of `S` as the specification writes it:
`dS/dd_i = r_i·normd_i/norm - (s/norm²)·normd_i`. -/
def specDS [Field α] (m : CMath α) (lambda : α) (d : List α) (i : Nat) : α :=
  ((i + 1 : Nat) : α) * specNormd m lambda d i / specNorm m lambda d
    - (specSum m lambda d / specNorm m lambda d ^ 2) * specNormd m lambda d i

/-- The derivative of `Z` as the specification writes it:
`dZ/dd_i = -(normd_i) / (norm·λ)`. -/
def specDZ [Field α] (m : CMath α) (lambda : α) (d : List α) (i : Nat) : α :=
  -(specNormd m lambda d i) / (specNorm m lambda d * lambda)

/-- The constructor `Path::Path` (Path.cpp lines 68-83), after the base-class
constructors: the checks on the arguments, in source order.  The result on success is
`rankOneOutput`; reading `LAMBDA` and creating the components `s` and `z` follow.  The
difference `arg_ends[1]-arg_ends[0]` is taken in `unsigned` arithmetic. -/
def Path.Path (ao : ActionWithArguments) : Outcome Bool :=
  match ao.getPntrToArgument 0 with
  | none => Outcome.outOfBounds 0
  | some arg0 =>
    let rankOneOutput := decide (arg0.rank > 0)
    if arg0.rank > 1 then Outcome.error "input arguments should be rank 0 or rank 1"
    else if rankOneOutput && decide (ao.getNumberOfArguments > 1) then
      Outcome.error "cannot sum more than one vector or matrix at a time"
    else if (ao.arg_ends 1 + 4294967296 - ao.arg_ends 0) % 4294967296 ≠ 1 then
      Outcome.error "makes no sense to use ARG1, ARG2... with this action use single ARG keyword"
    else if ao.arguments.any (fun a => a.periodic) then
      Outcome.error "cannot use this function on periodic functions"
    else Outcome.ok rankOneOutput

end function

namespace mapping

variable {F B α : Type}

/-- The state of a `PathProjectionCalculator` that `getProjectionOnPath` reads.  The
matrix `mypath_obj` is seen through `getShape()[1]` and `get`; the embedded `metric`
engine is the function `metric`, giving the contents of the bound buffer `data` after the
two frames have been transferred and `metric.cmd("calc")` has run.  The accessor
`Value::get` is not among the sources: it is an input that, for each offset, returns an
entry, reports an error, or reads outside its storage. -/
structure PathProjectionCalculator (F B α : Type) where
  /-- The vector `reference_frames`. -/
  reference_frames : List F
  /-- The number of columns `mypath_obj->getShape()[1]`. -/
  shape1 : Nat
  /-- The accessor `mypath_obj->get` on the row-major matrix. -/
  get : Nat → Outcome α
  /-- The buffer `data` that the metric leaves for two frames and a box. -/
  metric : F → F → B → List α

/-- The checks on the input at the head of the constructor
`PathProjectionCalculator::PathProjectionCalculator` (PathProjectionCalculator.cpp lines
35-43); on `ok` the constructor goes on to resolve the reference frames and to set up the
metric. -/
def PathProjectionCalculator.PathProjectionCalculator (act : ActionWithArguments) :
    Outcome Unit :=
  match act.getPntrToArgument 0 with
  | none => Outcome.outOfBounds 0
  | some mypath_obj =>
    if act.getNumberOfArguments ≠ 1 then
      Outcome.error "should only have one argument to this function"
    else if mypath_obj.rank ≠ 2 then
      Outcome.error "the input to this action should be a matrix"
    else Outcome.ok ()

end mapping

end PLMD

/-! ## Loop lemmas for `Path` -/

namespace PLMD.function

variable {α : Type} [Field α]

/-- The first loop, run for `n` iterations, accumulates the partial sums. -/
theorem sumFold_spec (m : CMath α) (lambda : α) (args : List α) (n : Nat) :
    ((List.range n).foldl (sumStep m lambda args) ⟨0, 0, fun _ => 0⟩).s
        = ∑ j in Finset.range n, ((j + 1 : Nat) : α) * m.exp (-lambda * args.getD j 0) ∧
    ((List.range n).foldl (sumStep m lambda args) ⟨0, 0, fun _ => 0⟩).norm
        = ∑ j in Finset.range n, m.exp (-lambda * args.getD j 0) ∧
    ∀ i, ((List.range n).foldl (sumStep m lambda args) ⟨0, 0, fun _ => 0⟩).normd i
        = if i < n then -lambda * m.exp (-lambda * args.getD i 0) else 0 := by
  induction n with
  | zero => simp
  | succ n ih =>
    obtain ⟨h1, h2, h3⟩ := ih
    rw [List.range_succ, List.foldl_append]
    simp only [List.foldl_cons, List.foldl_nil, sumStep, Finset.sum_range_succ, h1, h2]
    refine ⟨trivial, trivial, fun i => ?_⟩
    by_cases hi : i = n
    · subst hi; simp
    · rw [Function.update_noteq hi, h3 i]
      have : (i < n + 1) ↔ (i < n) := by omega
      simp [this]

/-- Value of `s` after the first loop. -/
theorem sumLoop_s (m : CMath α) (lambda : α) (args : List α) :
    (sumLoop m lambda args).s
      = ∑ j in Finset.range args.length, ((j + 1 : Nat) : α) * m.exp (-lambda * args.getD j 0) :=
  (sumFold_spec m lambda args args.length).1

/-- Value of `norm` after the first loop. -/
theorem sumLoop_norm (m : CMath α) (lambda : α) (args : List α) :
    (sumLoop m lambda args).norm
      = ∑ j in Finset.range args.length, m.exp (-lambda * args.getD j 0) :=
  (sumFold_spec m lambda args args.length).2.1

/-- Entries of `normd` after the first loop. -/
theorem sumLoop_normd (m : CMath α) (lambda : α) (args : List α) (i : Nat)
    (hi : i < args.length) :
    (sumLoop m lambda args).normd i = -lambda * m.exp (-lambda * args.getD i 0) := by
  have h := (sumFold_spec m lambda args args.length).2.2 i
  rw [if_pos hi] at h
  exact h

/-- The second loop, run for `n` iterations, leaves the values alone and adds one term to
each of the first `n` derivatives of the two components. -/
theorem derivFold_spec (st : Sums α) (zpref ddenom : α) (myvals : MultiValue α) (n : Nat) :
    ((List.range n).foldl (derivStep st zpref ddenom) myvals).values = myvals.values ∧
    (∀ i, ((List.range n).foldl (derivStep st zpref ddenom) myvals).derivatives 0 i
        = myvals.derivatives 0 i +
          if i < n then ((i + 1 : Nat) : α) * st.normd i / st.norm - ddenom * st.normd i
          else 0) ∧
    (∀ i, ((List.range n).foldl (derivStep st zpref ddenom) myvals).derivatives 1 i
        = myvals.derivatives 1 i + if i < n then -zpref * st.normd i else 0) := by
  induction n with
  | zero => simp
  | succ n ih =>
    obtain ⟨h1, h2, h3⟩ := ih
    rw [List.range_succ, List.foldl_append]
    simp only [List.foldl_cons, List.foldl_nil, derivStep, addDerivative]
    refine ⟨h1, fun i => ?_, fun i => ?_⟩
    · by_cases hi : i = n
      · subst hi; simp [h2]
      · have : (i < n + 1) ↔ (i < n) := by omega
        simp [Function.update_noteq hi, h2 i, this]
    · by_cases hi : i = n
      · subst hi; simp [h3]
      · have : (i < n + 1) ↔ (i < n) := by omega
        simp [Function.update_noteq hi, h3 i, this]

/-- The finalisation loop, run for `n` iterations, rewrites the first `n` derivative slots
of both components from their accumulated contents and touches nothing else. -/
theorem transformFold_spec (num denom denom2 zpref : α) (vals : Value α × Value α) (n : Nat) :
    ((List.range n).foldl (transformStep num denom denom2 zpref) vals).1.value = vals.1.value ∧
    ((List.range n).foldl (transformStep num denom denom2 zpref) vals).2.value = vals.2.value ∧
    (∀ j, ((List.range n).foldl (transformStep num denom denom2 zpref) vals).1.derivs j
        = if j < n then vals.1.derivs j / denom - vals.2.derivs j * num / denom2
          else vals.1.derivs j) ∧
    (∀ j, ((List.range n).foldl (transformStep num denom denom2 zpref) vals).2.derivs j
        = if j < n then -zpref * vals.2.derivs j else vals.2.derivs j) := by
  induction n with
  | zero => simp
  | succ n ih =>
    obtain ⟨h1, h2, h3, h4⟩ := ih
    rw [List.range_succ, List.foldl_append]
    simp only [List.foldl_cons, List.foldl_nil, transformStep, Value.setDerivative,
      Value.getDerivative]
    refine ⟨h1, h2, fun j => ?_, fun j => ?_⟩
    · by_cases hj : j = n
      · subst hj; simp [h3, h4]
      · have : (j < n + 1) ↔ (j < n) := by omega
        simp [Function.update_noteq hj, h3 j, this]
    · by_cases hj : j = n
      · subst hj; simp [h4]
      · have : (j < n + 1) ↔ (j < n) := by omega
        simp [Function.update_noteq hj, h4 j, this]

/-- In streaming mode the first `n` tasks accumulate the partial sums of the numerator and
of the weight, and fill the first `n` derivative slots. -/
theorem streamFold_spec (m : CMath α) (p : Path α) (d : List α) (N : Nat)
    (hp : p.done_over_stream = true) (n : Nat) :
    ∃ vals, (List.range n).foldl (streamTask m p d)
        (some (Value.cleared N, Value.cleared N)) = some vals ∧
      vals.1.value = ∑ t in Finset.range n, ((t + 1 : Nat) : α) * m.exp (-p.lambda * d.getD t 0) ∧
      vals.2.value = ∑ t in Finset.range n, m.exp (-p.lambda * d.getD t 0) ∧
      vals.1.nder = N ∧ vals.2.nder = N ∧
      (∀ j, vals.1.derivs j
        = if j < n then -p.lambda * ((j + 1 : Nat) : α) * m.exp (-p.lambda * d.getD j 0) else 0) ∧
      (∀ j, vals.2.derivs j
        = if j < n then -p.lambda * m.exp (-p.lambda * d.getD j 0) else 0) := by
  induction n with
  | zero => exact ⟨_, rfl, by simp [Value.cleared]⟩
  | succ n ih =>
    obtain ⟨vals, hv, h1, h2, h3, h4, h5, h6⟩ := ih
    rw [List.range_succ, List.foldl_append, hv]
    simp only [List.foldl_cons, List.foldl_nil, streamTask, Path.calculateFunction,
      List.length_singleton, if_true, hp, gatherTask, setValue, addDerivative,
      MultiValue.getTaskIndex, MultiValue.clear]
    refine ⟨_, rfl, ?_, ?_, h3, h4, fun j => ?_, fun j => ?_⟩
    · simp [Finset.sum_range_succ, h1]
    · simp [Finset.sum_range_succ, h2]
    · by_cases hj : j = n
      · subst hj; simp [h5]
      · have : (j < n + 1) ↔ (j < n) := by omega
        simp [Function.update_noteq hj, h5 j, this]
    · by_cases hj : j = n
      · subst hj; simp [h6]
      · have : (j < n + 1) ↔ (j < n) := by omega
        simp [Function.update_noteq hj, h6 j, this]

/-- The whole-vector branch of `calculateFunction` always returns; it stores the `S` and
`Z` of the specification and, when derivatives are requested, adds the derivatives of the
specification to the derivative slots `0..N-1` of the two components. -/
theorem calculateFunction_whole (m : CMath α) (p : Path α) (args : List α)
    (myvals : MultiValue α) (h : args.length ≠ 1) :
    ∃ out, p.calculateFunction m args myvals = some out ∧
      out.values 0 = specS m p.lambda args ∧
      out.values 1 = specZ m p.lambda args ∧
      (p.noDerivatives = false → ∀ i, i < args.length →
        out.derivatives 0 i = myvals.derivatives 0 i + specDS m p.lambda args i ∧
        out.derivatives 1 i = myvals.derivatives 1 i + specDZ m p.lambda args i) := by
  have hs := sumLoop_s m p.lambda args
  have hn := sumLoop_norm m p.lambda args
  cases hd : p.noDerivatives with
  | true =>
    refine ⟨_, by simp only [Path.calculateFunction, if_neg h, hd]; rfl, ?_, ?_, ?_⟩
    · simp [setValue, specS, specSum, specNorm, hs, hn]
    · simp [setValue, specZ, specNorm, hn]
    · intro hc; cases hc
  | false =>
    refine ⟨_, by simp only [Path.calculateFunction, if_neg h, hd]; rfl, ?_, ?_, ?_⟩
    · rw [(derivFold_spec _ _ _ _ _).1]
      simp [setValue, specS, specSum, specNorm, hs, hn]
    · rw [(derivFold_spec _ _ _ _ _).1]
      simp [setValue, specZ, specNorm, hn]
    · intro _ i hi
      rw [(derivFold_spec _ _ _ _ _).2.1 i, (derivFold_spec _ _ _ _ _).2.2 i, if_pos hi,
        if_pos hi, sumLoop_normd m p.lambda args i hi, hs, hn]
      simp only [setValue, specDS, specDZ, specNormd, specSum, specNorm]
      constructor
      · congr 1; ring
      · congr 1; ring

end PLMD.function

/-! ## The reduction over the reals -/

namespace PLMD.function

/-- Reading a vector in which entry `i` has been replaced. -/
theorem getD_set_eq (d : List ℝ) (i j : Nat) (x : ℝ) (hi : i < d.length) :
    (d.set i x).getD j 0 = if j = i then x else d.getD j 0 := by
  simp only [List.getD_eq_getElem?_getD, List.getElem?_set]
  by_cases h : i = j
  · subst h; simp [hi]
  · have h2 : ¬ j = i := fun e => h e.symm
    simp [h, h2]

/-- The weight sum of a non-empty vector is positive. -/
theorem specNorm_pos (lambda : ℝ) (d : List ℝ) (hN : 0 < d.length) :
    0 < specNorm ⟨Real.exp, Real.log⟩ lambda d := by
  unfold specNorm
  apply Finset.sum_pos
  · intro j _; exact Real.exp_pos _
  · exact Finset.nonempty_range_iff.mpr (by omega)

/-- Partial derivative of the weight sum with respect to entry `i`. -/
theorem hasDerivAt_specNorm (lambda : ℝ) (d : List ℝ) (i : Nat) (hi : i < d.length) :
    HasDerivAt (fun x => specNorm ⟨Real.exp, Real.log⟩ lambda (d.set i x))
      (specNormd ⟨Real.exp, Real.log⟩ lambda d i) (d.getD i 0) := by
  have hfun : (fun x => specNorm ⟨Real.exp, Real.log⟩ lambda (d.set i x))
      = fun x => ∑ j in Finset.range d.length,
          Real.exp (-lambda * (if j = i then x else d.getD j 0)) := by
    funext x
    simp only [specNorm, List.length_set, getD_set_eq d i _ x hi]
  have hval : specNormd ⟨Real.exp, Real.log⟩ lambda d i
      = ∑ j in Finset.range d.length,
          (if i = j then -lambda * Real.exp (-lambda * d.getD j 0) else 0) := by
    rw [Finset.sum_ite_eq, if_pos (Finset.mem_range.mpr hi)]
    rfl
  rw [hfun, hval]
  apply HasDerivAt.sum
  intro j _
  by_cases hj : i = j
  · subst hj
    simp only [if_true]
    have h := ((hasDerivAt_id (d.getD i 0)).const_mul (-lambda)).exp
    simp only [id, mul_one] at h
    rw [mul_comm] at h
    exact h
  · have hj2 : ¬ j = i := fun e => hj e.symm
    simp only [if_neg hj, if_neg hj2]
    exact hasDerivAt_const _ _

/-- Partial derivative of the rank-weighted sum with respect to entry `i`. -/
theorem hasDerivAt_specSum (lambda : ℝ) (d : List ℝ) (i : Nat) (hi : i < d.length) :
    HasDerivAt (fun x => specSum ⟨Real.exp, Real.log⟩ lambda (d.set i x))
      (((i + 1 : Nat) : ℝ) * specNormd ⟨Real.exp, Real.log⟩ lambda d i) (d.getD i 0) := by
  have hfun : (fun x => specSum ⟨Real.exp, Real.log⟩ lambda (d.set i x))
      = fun x => ∑ j in Finset.range d.length,
          ((j + 1 : Nat) : ℝ) * Real.exp (-lambda * (if j = i then x else d.getD j 0)) := by
    funext x
    simp only [specSum, List.length_set, getD_set_eq d i _ x hi]
  have hval : ((i + 1 : Nat) : ℝ) * specNormd ⟨Real.exp, Real.log⟩ lambda d i
      = ∑ j in Finset.range d.length,
          (if i = j then ((j + 1 : Nat) : ℝ) * (-lambda * Real.exp (-lambda * d.getD j 0))
           else 0) := by
    rw [Finset.sum_ite_eq, if_pos (Finset.mem_range.mpr hi)]
    rfl
  rw [hfun, hval]
  apply HasDerivAt.sum
  intro j _
  by_cases hj : i = j
  · subst hj
    simp only [if_true]
    have h := (((hasDerivAt_id (d.getD i 0)).const_mul (-lambda)).exp).const_mul
      (((i + 1 : Nat) : ℝ))
    simp only [id, mul_one] at h
    rw [mul_comm (Real.exp _) (-lambda)] at h
    exact h
  · have hj2 : ¬ j = i := fun e => hj e.symm
    simp only [if_neg hj, if_neg hj2]
    exact hasDerivAt_const _ _

/-- Replacing entry `i` by itself changes neither sum. -/
theorem spec_set_self (lambda : ℝ) (d : List ℝ) (i : Nat) (hi : i < d.length) :
    specNorm ⟨Real.exp, Real.log⟩ lambda (d.set i (d.getD i 0))
        = specNorm ⟨Real.exp, Real.log⟩ lambda d ∧
    specSum ⟨Real.exp, Real.log⟩ lambda (d.set i (d.getD i 0))
        = specSum ⟨Real.exp, Real.log⟩ lambda d := by
  have h : ∀ j, (d.set i (d.getD i 0)).getD j 0 = d.getD j 0 := by
    intro j
    rw [getD_set_eq d i j _ hi]
    by_cases hj : j = i
    · subst hj; simp
    · simp [hj]
  simp only [specNorm, specSum, List.length_set, h]
  exact ⟨trivial, trivial⟩

/-- The specification's `dS/dd_i` is the partial derivative of the specification's `S`. -/
theorem hasDerivAt_specS (lambda : ℝ) (d : List ℝ) (i : Nat) (hi : i < d.length) :
    HasDerivAt (fun x => specS ⟨Real.exp, Real.log⟩ lambda (d.set i x))
      (specDS ⟨Real.exp, Real.log⟩ lambda d i) (d.getD i 0) := by
  have hpos := specNorm_pos lambda d (by omega)
  have hne : specNorm ⟨Real.exp, Real.log⟩ lambda (d.set i (d.getD i 0)) ≠ 0 := by
    rw [(spec_set_self lambda d i hi).1]; exact ne_of_gt hpos
  have h := (hasDerivAt_specSum lambda d i hi).div (hasDerivAt_specNorm lambda d i hi) hne
  rw [(spec_set_self lambda d i hi).1, (spec_set_self lambda d i hi).2] at h
  have heq : specDS ⟨Real.exp, Real.log⟩ lambda d i
      = (((i + 1 : Nat) : ℝ) * specNormd ⟨Real.exp, Real.log⟩ lambda d i
            * specNorm ⟨Real.exp, Real.log⟩ lambda d
          - specSum ⟨Real.exp, Real.log⟩ lambda d * specNormd ⟨Real.exp, Real.log⟩ lambda d i)
        / specNorm ⟨Real.exp, Real.log⟩ lambda d ^ 2 := by
    unfold specDS
    field_simp
    ring
  rw [heq]
  exact h

/-- The specification's `dZ/dd_i` is the partial derivative of the specification's `Z`. -/
theorem hasDerivAt_specZ (lambda : ℝ) (d : List ℝ) (i : Nat) (hi : i < d.length)
    (hlam : lambda ≠ 0) :
    HasDerivAt (fun x => specZ ⟨Real.exp, Real.log⟩ lambda (d.set i x))
      (specDZ ⟨Real.exp, Real.log⟩ lambda d i) (d.getD i 0) := by
  have hpos := specNorm_pos lambda d (by omega)
  have hne : specNorm ⟨Real.exp, Real.log⟩ lambda (d.set i (d.getD i 0)) ≠ 0 := by
    rw [(spec_set_self lambda d i hi).1]; exact ne_of_gt hpos
  have h := (((hasDerivAt_specNorm lambda d i hi).log hne).neg).div_const lambda
  rw [(spec_set_self lambda d i hi).1] at h
  have heq : specDZ ⟨Real.exp, Real.log⟩ lambda d i
      = -(specNormd ⟨Real.exp, Real.log⟩ lambda d i / specNorm ⟨Real.exp, Real.log⟩ lambda d)
          / lambda := by
    unfold specDZ
    field_simp
  rw [heq]
  exact h

end PLMD.function

namespace PLMD.function

/-- Streaming mode always returns when the input is streamed; after finalisation the two
components hold the `S` and `Z` of the specification and, when derivatives are requested,
their derivative slots hold the derivatives of the specification. -/
theorem runStream_spec {α : Type} [Field α] (m : CMath α) (p : Path α) (d : List α)
    (hp : p.done_over_stream = true) (ha : p.numberOfArguments ≤ 1) :
    ∃ vals, p.runStream m d = some vals ∧
      vals.1.value = specS m p.lambda d ∧
      vals.2.value = specZ m p.lambda d ∧
      (p.noDerivatives = false → ∀ i, i < d.length →
        vals.1.derivs i = specDS m p.lambda d i ∧
        vals.2.derivs i = specDZ m p.lambda d i) := by
  obtain ⟨v, hv, h1, h2, h3, h4, h5, h6⟩ := streamFold_spec m p d d.length hp d.length
  have hcond : (!p.done_over_stream || decide (p.numberOfArguments > 1)) = false := by
    simp [hp, ha]
  cases hd : p.noDerivatives with
  | true =>
    have hrun : p.runStream m d = some (⟨v.1.value / v.2.value, v.1.nder, v.1.derivs⟩,
        ⟨-m.log v.2.value / p.lambda, v.2.nder, v.2.derivs⟩) := by
      simp [Path.runStream, hv, Path.transformFinalValueAndDerivatives, hcond, hd, Value.set,
        Value.get]
    refine ⟨_, hrun, ?_, ?_, ?_⟩
    · simp [specS, specSum, specNorm, h1, h2]
    · simp [specZ, specNorm, h2]
    · intro hc; cases hc
  | false =>
    have hrun : p.runStream m d = some ((List.range v.1.nder).foldl
        (transformStep v.1.value v.2.value (v.2.value * v.2.value) (1 / (v.2.value * p.lambda)))
        (⟨v.1.value / v.2.value, v.1.nder, v.1.derivs⟩,
          ⟨-m.log v.2.value / p.lambda, v.2.nder, v.2.derivs⟩)) := by
      simp [Path.runStream, hv, Path.transformFinalValueAndDerivatives, hcond, hd, Value.set,
        Value.get, Value.getNumberOfDerivatives]
    refine ⟨_, hrun, ?_, ?_, ?_⟩
    · rw [(transformFold_spec _ _ _ _ _ _).1]
      simp [specS, specSum, specNorm, h1, h2]
    · rw [(transformFold_spec _ _ _ _ _ _).2.1]
      simp [specZ, specNorm, h2]
    · intro _ i hi
      rw [(transformFold_spec _ _ _ _ _ _).2.2.1 i, (transformFold_spec _ _ _ _ _ _).2.2.2 i]
      simp only [h3, if_pos hi, h5 i, h6 i, h1, h2, specDS, specDZ, specNormd, specSum, specNorm]
      constructor
      · ring
      · ring

end PLMD.function

namespace PLMD.function

/-- Reading a shifted vector inside its bounds. -/
theorem getD_map_of_lt (d : List ℝ) (f : ℝ → ℝ) (j : Nat) (hj : j < d.length) :
    (d.map f).getD j 0 = f (d.getD j 0) := by
  simp [List.getD_eq_getElem?_getD, List.getElem?_map, List.getElem?_eq_getElem hj]

/-- Shifting every distance by `c` scales the weight sum by `exp(-λc)`. -/
theorem specNorm_shift (lambda c : ℝ) (d : List ℝ) :
    specNorm ⟨Real.exp, Real.log⟩ lambda (d.map (fun x => x + c))
      = Real.exp (-lambda * c) * specNorm ⟨Real.exp, Real.log⟩ lambda d := by
  simp only [specNorm, List.length_map, Finset.mul_sum]
  apply Finset.sum_congr rfl
  intro j hj
  rw [getD_map_of_lt d _ j (Finset.mem_range.mp hj), ← Real.exp_add]
  congr 1; ring

/-- Shifting every distance by `c` scales the rank-weighted sum by `exp(-λc)`. -/
theorem specSum_shift (lambda c : ℝ) (d : List ℝ) :
    specSum ⟨Real.exp, Real.log⟩ lambda (d.map (fun x => x + c))
      = Real.exp (-lambda * c) * specSum ⟨Real.exp, Real.log⟩ lambda d := by
  simp only [specSum, List.length_map, Finset.mul_sum]
  apply Finset.sum_congr rfl
  intro j hj
  rw [getD_map_of_lt d _ j (Finset.mem_range.mp hj), mul_left_comm, ← Real.exp_add]
  congr 2; ring

/-- The quantities `normd_i` add up to `-λ·norm`. -/
theorem sum_specNormd (lambda : ℝ) (d : List ℝ) :
    ∑ i in Finset.range d.length, specNormd ⟨Real.exp, Real.log⟩ lambda d i
      = -lambda * specNorm ⟨Real.exp, Real.log⟩ lambda d := by
  simp only [specNormd, specNorm, Finset.mul_sum]

/-- The quantities `r_i·normd_i` add up to `-λ·s`. -/
theorem sum_rank_specNormd (lambda : ℝ) (d : List ℝ) :
    ∑ i in Finset.range d.length,
        ((i + 1 : Nat) : ℝ) * specNormd ⟨Real.exp, Real.log⟩ lambda d i
      = -lambda * specSum ⟨Real.exp, Real.log⟩ lambda d := by
  simp only [specNormd, specSum, Finset.mul_sum]
  apply Finset.sum_congr rfl
  intro j _
  ring

/-- The derivatives of `S` of the specification add up to zero. -/
theorem sum_specDS (lambda : ℝ) (d : List ℝ) (hN : 0 < d.length) :
    ∑ i in Finset.range d.length, specDS ⟨Real.exp, Real.log⟩ lambda d i = 0 := by
  have hne : specNorm ⟨Real.exp, Real.log⟩ lambda d ≠ 0 := ne_of_gt (specNorm_pos lambda d hN)
  simp only [specDS]
  rw [Finset.sum_sub_distrib, ← Finset.sum_div, ← Finset.mul_sum, sum_specNormd,
    sum_rank_specNormd]
  field_simp
  ring

/-- The derivatives of `Z` of the specification add up to one. -/
theorem sum_specDZ (lambda : ℝ) (d : List ℝ) (hN : 0 < d.length) (hlam : lambda ≠ 0) :
    ∑ i in Finset.range d.length, specDZ ⟨Real.exp, Real.log⟩ lambda d i = 1 := by
  have hne : specNorm ⟨Real.exp, Real.log⟩ lambda d ≠ 0 := ne_of_gt (specNorm_pos lambda d hN)
  simp only [specDZ]
  rw [← Finset.sum_div, Finset.sum_neg_distrib, sum_specNormd]
  field_simp
  ring

/-- The progress coordinate of the specification is a weighted mean of the ranks `1..N`. -/
theorem specS_bounds (lambda : ℝ) (d : List ℝ) (hN : 0 < d.length) :
    1 ≤ specS ⟨Real.exp, Real.log⟩ lambda d ∧
      specS ⟨Real.exp, Real.log⟩ lambda d ≤ (d.length : ℝ) := by
  have hpos := specNorm_pos lambda d hN
  unfold specS
  constructor
  · rw [le_div_iff₀ hpos, one_mul]
    unfold specNorm specSum
    apply Finset.sum_le_sum
    intro j _
    have h1 : (1 : ℝ) ≤ ((j + 1 : Nat) : ℝ) := by exact_mod_cast Nat.succ_le_succ (Nat.zero_le j)
    have h2 := Real.exp_pos (-lambda * d.getD j 0)
    show Real.exp (-lambda * d.getD j 0) ≤ ((j + 1 : Nat) : ℝ) * Real.exp (-lambda * d.getD j 0)
    nlinarith
  · rw [div_le_iff₀ hpos]
    unfold specNorm specSum
    rw [Finset.mul_sum]
    apply Finset.sum_le_sum
    intro j hj
    have h1 : ((j + 1 : Nat) : ℝ) ≤ (d.length : ℝ) := by
      exact_mod_cast Nat.succ_le_of_lt (Finset.mem_range.mp hj)
    have h2 := Real.exp_pos (-lambda * d.getD j 0)
    show ((j + 1 : Nat) : ℝ) * Real.exp (-lambda * d.getD j 0)
      ≤ (d.length : ℝ) * Real.exp (-lambda * d.getD j 0)
    nlinarith

/-- For non-negative distances the weight sum is at most `N`. -/
theorem specNorm_le_length (lambda : ℝ) (d : List ℝ) (hlam : 0 < lambda)
    (hd : ∀ x ∈ d, 0 ≤ x) : specNorm ⟨Real.exp, Real.log⟩ lambda d ≤ (d.length : ℝ) := by
  unfold specNorm
  have h : ∀ j ∈ Finset.range d.length, Real.exp (-lambda * d.getD j 0) ≤ 1 := by
    intro j hj
    have hj2 := Finset.mem_range.mp hj
    have hx : 0 ≤ d.getD j 0 := by
      rw [List.getD_eq_getElem _ _ hj2]
      exact hd _ (List.getElem_mem hj2)
    rw [Real.exp_le_one_iff]
    nlinarith
  calc ∑ j in Finset.range d.length, Real.exp (-lambda * d.getD j 0)
      ≤ ∑ j in Finset.range d.length, (1 : ℝ) := Finset.sum_le_sum h
    _ = (d.length : ℝ) := by simp

end PLMD.function

/-! ## The claims about `Path` -/

namespace PLMD.function

/-- Claim C1: streaming mode equals whole-vector mode.  For `N ≥ 2` distances and `λ > 0`,
accumulating the provisional components of the tasks `0..N-1` (the derivative of task `t`
in derivative slot `t`) and applying `transformFinalValueAndDerivatives` gives exactly the
`S`, the `Z` and the derivatives `dS/dd_i`, `dZ/dd_i` that `calculateFunction` gives on
the whole vector with the same `λ`. -/
theorem stream_eq_whole (p q : Path ℝ) (d : List ℝ) (t : Nat)
    (hN : 2 ≤ d.length) (hlam : 0 < p.lambda) (hq : q.lambda = p.lambda)
    (hp : p.done_over_stream = true) (ha : p.numberOfArguments = 1)
    (hpd : p.noDerivatives = false) (hqd : q.noDerivatives = false) :
    ∃ vals out,
      p.runStream ⟨Real.exp, Real.log⟩ d = some vals ∧
      q.calculateFunction ⟨Real.exp, Real.log⟩ d (MultiValue.clear t) = some out ∧
      vals.1.value = out.values 0 ∧ vals.2.value = out.values 1 ∧
      ∀ i, i < d.length →
        vals.1.derivs i = out.derivatives 0 i ∧ vals.2.derivs i = out.derivatives 1 i := by
  obtain ⟨vals, hv, hs, hz, hder⟩ := runStream_spec ⟨Real.exp, Real.log⟩ p d hp (le_of_eq ha)
  obtain ⟨out, ho, hs2, hz2, hder2⟩ :=
    calculateFunction_whole ⟨Real.exp, Real.log⟩ q d (MultiValue.clear t) (by omega)
  refine ⟨vals, out, hv, ho, ?_, ?_, fun i hi => ?_⟩
  · rw [hs, hs2, hq]
  · rw [hz, hz2, hq]
  · obtain ⟨a1, a2⟩ := hder hpd i hi
    obtain ⟨b1, b2⟩ := hder2 hqd i hi
    rw [a1, a2, b1, b2, hq]
    simp [MultiValue.clear]

/-- Witness of claim C1 at `λ = 1`, `d = [0, 1]`. -/
theorem stream_eq_whole_witness :
    (2 ≤ [(0 : ℝ), 1].length ∧ (0 : ℝ) < 1) ∧
    ∃ vals out,
      Path.runStream ⟨Real.exp, Real.log⟩ ⟨(1 : ℝ), true, false, 1⟩ [0, 1] = some vals ∧
      Path.calculateFunction ⟨Real.exp, Real.log⟩ ⟨(1 : ℝ), false, false, 1⟩ [0, 1]
        (MultiValue.clear 0) = some out ∧
      vals.1.value = out.values 0 ∧ vals.2.value = out.values 1 ∧
      ∀ i, i < [(0 : ℝ), 1].length →
        vals.1.derivs i = out.derivatives 0 i ∧ vals.2.derivs i = out.derivatives 1 i :=
  ⟨⟨by simp, by norm_num⟩,
    stream_eq_whole ⟨(1 : ℝ), true, false, 1⟩ ⟨(1 : ℝ), false, false, 1⟩ [0, 1] 0
      (by simp) (by norm_num) rfl rfl rfl rfl rfl⟩

/-- Claim C2, as amended: for `N ≥ 2` distances and `λ > 0` the whole-vector branch of
`calculateFunction` returns, and the `S` it stores as component 0 satisfies
`1 ≤ S ≤ N`. -/
theorem whole_S_bounds (p : Path ℝ) (d : List ℝ) (myvals : MultiValue ℝ)
    (hN : 2 ≤ d.length) (hlam : 0 < p.lambda) :
    ∃ out, p.calculateFunction ⟨Real.exp, Real.log⟩ d myvals = some out ∧
      1 ≤ out.values 0 ∧ out.values 0 ≤ (d.length : ℝ) := by
  obtain ⟨out, ho, hs, _, _⟩ :=
    calculateFunction_whole ⟨Real.exp, Real.log⟩ p d myvals (by omega)
  refine ⟨out, ho, ?_⟩
  rw [hs]
  exact specS_bounds p.lambda d (by omega)

/-- Witness of the amended claim C2 at `λ = 1`, `d = [0, 1]`. -/
theorem whole_S_bounds_witness :
    (2 ≤ [(0 : ℝ), 1].length ∧ (0 : ℝ) < 1) ∧
    ∃ out, Path.calculateFunction ⟨Real.exp, Real.log⟩ ⟨(1 : ℝ), false, false, 1⟩ [0, 1]
        (MultiValue.clear 0) = some out ∧
      1 ≤ out.values 0 ∧ out.values 0 ≤ (([(0 : ℝ), 1].length : Nat) : ℝ) :=
  ⟨⟨by simp, by norm_num⟩,
    whole_S_bounds ⟨(1 : ℝ), false, false, 1⟩ [0, 1] (MultiValue.clear 0)
      (by simp) (by norm_num)⟩

/-- Counterexample to claim C2 as stated, at `N = 1`, `λ = 1`, `d = [1]`: outside streaming
mode the debug assertion `done_over_stream` fails and no value is produced; in streaming
mode component 0 is the provisional numerator `exp(-1)`, which is below 1. -/
theorem whole_S_bounds_single_fails :
    Path.calculateFunction ⟨Real.exp, Real.log⟩ ⟨(1 : ℝ), false, false, 1⟩ [1]
        (MultiValue.clear 0) = none ∧
    ∃ out, Path.calculateFunction ⟨Real.exp, Real.log⟩ ⟨(1 : ℝ), true, false, 1⟩ [1]
        (MultiValue.clear 0) = some out ∧
      out.values 0 = Real.exp (-1) ∧ ¬ (1 ≤ out.values 0) := by
  have hval : (Path.calculateFunction ⟨Real.exp, Real.log⟩ ⟨(1 : ℝ), true, false, 1⟩ [1]
      (MultiValue.clear 0)).map (fun out => out.values 0) = some (Real.exp (-1)) := by
    simp [Path.calculateFunction, setValue, addDerivative, MultiValue.clear,
      MultiValue.getTaskIndex]
  refine ⟨by simp [Path.calculateFunction], ?_⟩
  cases hc : Path.calculateFunction ⟨Real.exp, Real.log⟩ ⟨(1 : ℝ), true, false, 1⟩ [1]
      (MultiValue.clear 0) with
  | none => rw [hc] at hval; simp at hval
  | some out =>
    rw [hc] at hval
    simp only [Option.map_some', Option.some.injEq] at hval
    refine ⟨out, rfl, hval, ?_⟩
    rw [hval, not_le]
    exact Real.exp_lt_one_iff.mpr (by norm_num)

/-- Claim C3: the derivatives emitted by the whole-vector branch are exact.  For `N ≥ 2`,
`λ > 0` and `i < N`, the value that `calculateFunction` adds to derivative `i` of
component 0 is the partial derivative with respect to `d_i` of
`S(d) = (Σ_j (j+1)·exp(-λ d_j)) / (Σ_j exp(-λ d_j))`, and the value it adds to derivative
`i` of component 1 is the partial derivative of `Z(d) = -ln(Σ_j exp(-λ d_j)) / λ`. -/
theorem whole_derivatives_exact (p : Path ℝ) (d : List ℝ) (myvals : MultiValue ℝ) (i : Nat)
    (hN : 2 ≤ d.length) (hlam : 0 < p.lambda) (hpd : p.noDerivatives = false)
    (hi : i < d.length) :
    ∃ out, p.calculateFunction ⟨Real.exp, Real.log⟩ d myvals = some out ∧
      HasDerivAt (fun x => specS ⟨Real.exp, Real.log⟩ p.lambda (d.set i x))
        (out.derivatives 0 i - myvals.derivatives 0 i) (d.getD i 0) ∧
      HasDerivAt (fun x => specZ ⟨Real.exp, Real.log⟩ p.lambda (d.set i x))
        (out.derivatives 1 i - myvals.derivatives 1 i) (d.getD i 0) := by
  obtain ⟨out, ho, _, _, hder⟩ :=
    calculateFunction_whole ⟨Real.exp, Real.log⟩ p d myvals (by omega)
  obtain ⟨h0, h1⟩ := hder hpd i hi
  refine ⟨out, ho, ?_, ?_⟩
  · rw [h0, add_sub_cancel_left]
    exact hasDerivAt_specS p.lambda d i hi
  · rw [h1, add_sub_cancel_left]
    exact hasDerivAt_specZ p.lambda d i hi (ne_of_gt hlam)

/-- Witness of claim C3 at `λ = 1`, `d = [0, 1]`, `i = 1`. -/
theorem whole_derivatives_exact_witness :
    (2 ≤ [(0 : ℝ), 1].length ∧ (0 : ℝ) < 1 ∧ 1 < [(0 : ℝ), 1].length) ∧
    ∃ out, Path.calculateFunction ⟨Real.exp, Real.log⟩ ⟨(1 : ℝ), false, false, 1⟩ [0, 1]
        (MultiValue.clear 0) = some out ∧
      HasDerivAt (fun x => specS ⟨Real.exp, Real.log⟩ (1 : ℝ) ([(0 : ℝ), 1].set 1 x))
        (out.derivatives 0 1 - (MultiValue.clear 0 : MultiValue ℝ).derivatives 0 1)
        ([(0 : ℝ), 1].getD 1 0) ∧
      HasDerivAt (fun x => specZ ⟨Real.exp, Real.log⟩ (1 : ℝ) ([(0 : ℝ), 1].set 1 x))
        (out.derivatives 1 1 - (MultiValue.clear 0 : MultiValue ℝ).derivatives 1 1)
        ([(0 : ℝ), 1].getD 1 0) :=
  ⟨⟨by simp, by norm_num, by simp⟩,
    whole_derivatives_exact ⟨(1 : ℝ), false, false, 1⟩ [0, 1] (MultiValue.clear 0) 1
      (by simp) (by norm_num) rfl (by simp)⟩

/-- Claim C4: reducing a single distance gives `S = 1` and `Z = d`.  For every real `d` and
`λ > 0`, streaming the one-element input `[d]` (`calculateFunction` on the one-element
`args`, then `transformFinalValueAndDerivatives`) returns with `S = 1` and `Z = d`. -/
theorem single_distance (p : Path ℝ) (d : ℝ) (hlam : 0 < p.lambda)
    (hp : p.done_over_stream = true) (ha : p.numberOfArguments = 1) :
    ∃ vals, p.runStream ⟨Real.exp, Real.log⟩ [d] = some vals ∧
      vals.1.value = 1 ∧ vals.2.value = d := by
  obtain ⟨vals, hv, hs, hz, _⟩ := runStream_spec ⟨Real.exp, Real.log⟩ p [d] hp (le_of_eq ha)
  refine ⟨vals, hv, ?_, ?_⟩
  · rw [hs]
    simp [specS, specSum, specNorm]
  · rw [hz]
    have hne : p.lambda ≠ 0 := ne_of_gt hlam
    simp [specZ, specNorm]
    field_simp

/-- Witness of claim C4 at `λ = 2`, `d = 3`. -/
theorem single_distance_witness :
    (0 : ℝ) < 2 ∧
    ∃ vals, Path.runStream ⟨Real.exp, Real.log⟩ ⟨(2 : ℝ), true, false, 1⟩ [3] = some vals ∧
      vals.1.value = 1 ∧ vals.2.value = 3 :=
  ⟨by norm_num,
    single_distance ⟨(2 : ℝ), true, false, 1⟩ 3 (by norm_num) rfl rfl⟩

end PLMD.function

namespace PLMD.function

/-- Claim C9, as amended: for `N ≥ 2` non-negative distances and `λ > 0` the whole-vector
branch of `calculateFunction` returns, the `Z` it stores as component 1 is
`-ln(Σ_i exp(-λ d_i)) / λ`, and `Z ≥ -ln(N) / λ`. -/
theorem whole_Z_lower_bound (p : Path ℝ) (d : List ℝ) (myvals : MultiValue ℝ)
    (hN : 2 ≤ d.length) (hlam : 0 < p.lambda) (hd : ∀ x ∈ d, 0 ≤ x) :
    ∃ out, p.calculateFunction ⟨Real.exp, Real.log⟩ d myvals = some out ∧
      out.values 1
        = -Real.log (∑ i in Finset.range d.length, Real.exp (-p.lambda * d.getD i 0))
            / p.lambda ∧
      -Real.log (d.length : ℝ) / p.lambda ≤ out.values 1 := by
  obtain ⟨out, ho, _, hz, _⟩ :=
    calculateFunction_whole ⟨Real.exp, Real.log⟩ p d myvals (by omega)
  refine ⟨out, ho, by rw [hz]; rfl, ?_⟩
  rw [hz]
  unfold specZ
  have hpos := specNorm_pos p.lambda d (by omega)
  have hle := specNorm_le_length p.lambda d hlam hd
  have hlog := Real.log_le_log hpos hle
  rw [div_le_div_iff_of_pos_right hlam]
  exact neg_le_neg hlog

/-- Witness of the amended claim C9 at `λ = 1`, `d = [0, 1]`. -/
theorem whole_Z_lower_bound_witness :
    (2 ≤ [(0 : ℝ), 1].length ∧ (0 : ℝ) < 1 ∧ ∀ x ∈ [(0 : ℝ), 1], 0 ≤ x) ∧
    ∃ out, Path.calculateFunction ⟨Real.exp, Real.log⟩ ⟨(1 : ℝ), false, false, 1⟩ [0, 1]
        (MultiValue.clear 0) = some out ∧
      out.values 1
        = -Real.log (∑ i in Finset.range [(0 : ℝ), 1].length,
            Real.exp (-(1 : ℝ) * [(0 : ℝ), 1].getD i 0)) / (1 : ℝ) ∧
      -Real.log (([(0 : ℝ), 1].length : Nat) : ℝ) / (1 : ℝ) ≤ out.values 1 :=
  ⟨⟨by simp, by norm_num, by simp⟩,
    whole_Z_lower_bound ⟨(1 : ℝ), false, false, 1⟩ [0, 1] (MultiValue.clear 0)
      (by simp) (by norm_num) (by simp)⟩

/-- Counterexample to claim C9 as stated.  At `N = 2`, `λ = 1` and the real vector
`d = [-1, -1]` the whole-vector branch stores `Z = -ln(2e)`, which is below `-ln 2`.  At
`N = 1`, `λ = 1`, `d = [1]` no value is produced outside streaming mode, and in streaming
mode component 1 is the provisional weight `exp(-1)`, not `-ln(exp(-1)) / 1`. -/
theorem whole_Z_lower_bound_fails :
    (∃ out, Path.calculateFunction ⟨Real.exp, Real.log⟩ ⟨(1 : ℝ), false, false, 1⟩ [-1, -1]
        (MultiValue.clear 0) = some out ∧
      ¬ (-Real.log (2 : ℝ) / 1 ≤ out.values 1)) ∧
    Path.calculateFunction ⟨Real.exp, Real.log⟩ ⟨(1 : ℝ), false, false, 1⟩ [1]
        (MultiValue.clear 0) = none ∧
    ∃ out, Path.calculateFunction ⟨Real.exp, Real.log⟩ ⟨(1 : ℝ), true, false, 1⟩ [1]
        (MultiValue.clear 0) = some out ∧
      out.values 1 = Real.exp (-1) ∧
      out.values 1 ≠ -Real.log (Real.exp (-(1 : ℝ) * 1)) / 1 := by
  refine ⟨?_, by simp [Path.calculateFunction], ?_⟩
  · obtain ⟨out, ho, _, hz, _⟩ := calculateFunction_whole ⟨Real.exp, Real.log⟩
      ⟨(1 : ℝ), false, false, 1⟩ [-1, -1] (MultiValue.clear 0) (by simp)
    refine ⟨out, ho, ?_⟩
    rw [hz, not_le]
    simp only [specZ, specNorm, List.length_cons, List.length_nil, Finset.sum_range_succ,
      Finset.sum_range_zero, zero_add, div_one]
    have h1 : (1 : ℝ) < Real.exp 1 := Real.one_lt_exp_iff.mpr (by norm_num)
    have h2 : (2 : ℝ) < Real.exp 1 + Real.exp 1 := by linarith
    have h3 := Real.log_lt_log (by norm_num : (0 : ℝ) < 2) h2
    simpa using h3
  · have hval : (Path.calculateFunction ⟨Real.exp, Real.log⟩ ⟨(1 : ℝ), true, false, 1⟩ [1]
        (MultiValue.clear 0)).map (fun out => out.values 1) = some (Real.exp (-1)) := by
      simp [Path.calculateFunction, setValue, addDerivative, MultiValue.clear,
        MultiValue.getTaskIndex]
    cases hc : Path.calculateFunction ⟨Real.exp, Real.log⟩ ⟨(1 : ℝ), true, false, 1⟩ [1]
        (MultiValue.clear 0) with
    | none => rw [hc] at hval; simp at hval
    | some out =>
      rw [hc] at hval
      simp only [Option.map_some', Option.some.injEq] at hval
      refine ⟨out, rfl, hval, ?_⟩
      rw [hval, Real.log_exp]
      have h : Real.exp (-1) < 1 := Real.exp_lt_one_iff.mpr (by norm_num)
      intro he
      rw [he] at h
      norm_num at h

/-- Claim C10: the whole-vector reduction is shift-equivariant.  For `N ≥ 2`, `λ > 0` and a
real constant `c`, `calculateFunction` on the vector `(d_i + c)` stores the same `S` as on
`d` and a `Z` larger by exactly `c`; and the derivatives it emits satisfy
`Σ_i dS/dd_i = 0` and `Σ_i dZ/dd_i = 1`. -/
theorem whole_shift (p : Path ℝ) (d : List ℝ) (c : ℝ) (myvals : MultiValue ℝ)
    (hN : 2 ≤ d.length) (hlam : 0 < p.lambda) :
    ∃ out out',
      p.calculateFunction ⟨Real.exp, Real.log⟩ d myvals = some out ∧
      p.calculateFunction ⟨Real.exp, Real.log⟩ (d.map (fun x => x + c)) myvals = some out' ∧
      out'.values 0 = out.values 0 ∧ out'.values 1 = out.values 1 + c ∧
      (p.noDerivatives = false →
        ∑ i in Finset.range d.length, (out.derivatives 0 i - myvals.derivatives 0 i) = 0 ∧
        ∑ i in Finset.range d.length, (out.derivatives 1 i - myvals.derivatives 1 i) = 1) := by
  obtain ⟨out, ho, hs, hz, hder⟩ :=
    calculateFunction_whole ⟨Real.exp, Real.log⟩ p d myvals (by omega)
  obtain ⟨out', ho', hs', hz', _⟩ := calculateFunction_whole ⟨Real.exp, Real.log⟩ p
    (d.map (fun x => x + c)) myvals (by rw [List.length_map]; omega)
  have hpos := specNorm_pos p.lambda d (by omega)
  have hne : specNorm ⟨Real.exp, Real.log⟩ p.lambda d ≠ 0 := ne_of_gt hpos
  have hlne : p.lambda ≠ 0 := ne_of_gt hlam
  have hexp : Real.exp (-p.lambda * c) ≠ 0 := ne_of_gt (Real.exp_pos _)
  refine ⟨out, out', ho, ho', ?_, ?_, fun hpd => ⟨?_, ?_⟩⟩
  · rw [hs, hs']
    unfold specS
    rw [specSum_shift, specNorm_shift, mul_div_mul_left _ _ hexp]
  · rw [hz, hz']
    unfold specZ
    rw [specNorm_shift]
    show -Real.log (Real.exp (-p.lambda * c) * specNorm ⟨Real.exp, Real.log⟩ p.lambda d)
        / p.lambda
      = -Real.log (specNorm ⟨Real.exp, Real.log⟩ p.lambda d) / p.lambda + c
    rw [Real.log_mul hexp hne, Real.log_exp]
    field_simp
    ring
  · rw [← sum_specDS p.lambda d (by omega)]
    apply Finset.sum_congr rfl
    intro i hi
    rw [(hder hpd i (Finset.mem_range.mp hi)).1, add_sub_cancel_left]
  · rw [← sum_specDZ p.lambda d (by omega) hlne]
    apply Finset.sum_congr rfl
    intro i hi
    rw [(hder hpd i (Finset.mem_range.mp hi)).2, add_sub_cancel_left]

/-- Witness of claim C10 at `λ = 1`, `d = [0, 1]`, `c = 5`. -/
theorem whole_shift_witness :
    (2 ≤ [(0 : ℝ), 1].length ∧ (0 : ℝ) < 1) ∧
    ∃ out out',
      Path.calculateFunction ⟨Real.exp, Real.log⟩ ⟨(1 : ℝ), false, false, 1⟩ [0, 1]
        (MultiValue.clear 0) = some out ∧
      Path.calculateFunction ⟨Real.exp, Real.log⟩ ⟨(1 : ℝ), false, false, 1⟩
        ([(0 : ℝ), 1].map (fun x => x + 5)) (MultiValue.clear 0) = some out' ∧
      out'.values 0 = out.values 0 ∧ out'.values 1 = out.values 1 + 5 ∧
      ((false : Bool) = false →
        ∑ i in Finset.range [(0 : ℝ), 1].length,
          (out.derivatives 0 i - (MultiValue.clear 0 : MultiValue ℝ).derivatives 0 i) = 0 ∧
        ∑ i in Finset.range [(0 : ℝ), 1].length,
          (out.derivatives 1 i - (MultiValue.clear 0 : MultiValue ℝ).derivatives 1 i) = 1) :=
  ⟨⟨by simp, by norm_num⟩,
    whole_shift ⟨(1 : ℝ), false, false, 1⟩ [0, 1] 5 (MultiValue.clear 0)
      (by simp) (by norm_num)⟩

end PLMD.function

/-! ## The path projection and the constructors -/

namespace PLMD.mapping

/-- Claim C7, as amended: the constructor of `PathProjectionCalculator` accepts exactly one
input value of rank 2 (a matrix).  Its input checks pass exactly when there is one argument
and that argument has rank 2; with one argument of any other rank it reports that the input
should be a matrix; with more than one argument it reports that there should be only one
argument. -/
theorem constructor_accepts_one_matrix (act : ActionWithArguments) :
    (PathProjectionCalculator.PathProjectionCalculator act = Outcome.ok ()
      ↔ ∃ a, act.arguments = [a] ∧ a.rank = 2) ∧
    (∀ a, act.arguments = [a] → a.rank ≠ 2 →
      PathProjectionCalculator.PathProjectionCalculator act
        = Outcome.error "the input to this action should be a matrix") ∧
    (2 ≤ act.arguments.length →
      PathProjectionCalculator.PathProjectionCalculator act
        = Outcome.error "should only have one argument to this function") := by
  obtain ⟨args, ends⟩ := act
  cases args with
  | nil =>
    simp [PathProjectionCalculator.PathProjectionCalculator,
      ActionWithArguments.getPntrToArgument]
  | cons a rest =>
    cases rest with
    | nil =>
      by_cases hr : a.rank = 2
      · simp [PathProjectionCalculator.PathProjectionCalculator,
          ActionWithArguments.getPntrToArgument, ActionWithArguments.getNumberOfArguments, hr]
      · simp [PathProjectionCalculator.PathProjectionCalculator,
          ActionWithArguments.getPntrToArgument, ActionWithArguments.getNumberOfArguments, hr]
    | cons b rest2 =>
      simp [PathProjectionCalculator.PathProjectionCalculator,
        ActionWithArguments.getPntrToArgument, ActionWithArguments.getNumberOfArguments]

/-- Counterexample to claim C7 as stated: a single argument of rank 1, and one of rank 0,
is rejected with the message that the input should be a matrix, and a single argument of
rank 2 passes the checks.  With no argument at all, argument 0 is read before the number
of arguments is checked, and no error is reported. -/
theorem constructor_rejects_vector_accepts_matrix :
    PathProjectionCalculator.PathProjectionCalculator ⟨[⟨1, false⟩], fun i => i⟩
      = Outcome.error "the input to this action should be a matrix" ∧
    PathProjectionCalculator.PathProjectionCalculator ⟨[⟨0, false⟩], fun i => i⟩
      = Outcome.error "the input to this action should be a matrix" ∧
    PathProjectionCalculator.PathProjectionCalculator ⟨[⟨2, false⟩], fun i => i⟩
      = Outcome.ok () ∧
    PathProjectionCalculator.PathProjectionCalculator ⟨[], fun i => i⟩
      = Outcome.outOfBounds 0 :=
  ⟨rfl, rfl, rfl, rfl⟩

end PLMD.mapping

namespace PLMD.function

/-- What `Path::Path` does check: it reports an error when argument 0 has rank above 1,
when argument 0 has rank 1 or more and there are two or more arguments, and (with some
message) when any argument is periodic. -/
theorem Path_constructor_checks (ao : ActionWithArguments) (arg0 : Argument)
    (rest : List Argument) (h : ao.arguments = arg0 :: rest) :
    (1 < arg0.rank →
      Path.Path ao = Outcome.error "input arguments should be rank 0 or rank 1") ∧
    (arg0.rank = 1 → rest ≠ [] →
      Path.Path ao = Outcome.error "cannot sum more than one vector or matrix at a time") ∧
    ((∃ a ∈ ao.arguments, a.periodic = true) → ∃ msg, Path.Path ao = Outcome.error msg) := by
  obtain ⟨args, ends⟩ := ao
  simp only at h
  subst h
  refine ⟨fun h1 => ?_, fun h1 h2 => ?_, fun hper => ?_⟩
  · simp [Path.Path, ActionWithArguments.getPntrToArgument, h1]
  · cases rest with
    | nil => exact absurd rfl h2
    | cons b rest2 =>
      simp [Path.Path, ActionWithArguments.getPntrToArgument,
        ActionWithArguments.getNumberOfArguments, h1]
  · have hany : (arg0 :: rest).any (fun a => a.periodic) = true := by
      rw [List.any_eq_true]
      obtain ⟨a, ha, hp⟩ := hper
      exact ⟨a, ha, hp⟩
    simp only [Path.Path, ActionWithArguments.getPntrToArgument, List.getElem?_cons_zero, hany]
    split_ifs <;> exact ⟨_, rfl⟩

/-- Evaluation for claim C8: `Path::Path` completes without an error on a rank-0 argument
followed by a rank-2 argument, and on a rank-0 argument followed by two rank-1 arguments
(none periodic, `arg_ends = 0, 1, 2, ...`): only the rank of argument 0 is inspected. -/
theorem Path_constructor_accepts_later_ranks :
    Path.Path ⟨[⟨0, false⟩, ⟨2, false⟩], fun i => i⟩ = Outcome.ok false ∧
    Path.Path ⟨[⟨0, false⟩, ⟨1, false⟩, ⟨1, false⟩], fun i => i⟩ = Outcome.ok false :=
  ⟨rfl, rfl⟩

end PLMD.function
